import Mathlib

/-!
Verification of the data-introspection and normalization layer of the
database-expert-bot repository.

Part 1 models the MongoDB knowledge tool
(src/server_mcp/tools/mongodb_search_knowledge.py): the recursive document
normalizer `_encode_mongo_document` and the operation executor
`execute_operation`.

Part 2 models the PostgreSQL schema tool
(src/server_mcp/tools/postgresql_schema.py): `get_database_structure`,
`get_table_details`, the lifecycle flag and the close operation.

Python values reachable from a BSON document are embedded as the inductive
type `MValue`; Python exceptions are embedded as the `Except String`
monad (the payload is the exception message).
-/

/-- A Python value reachable from a MongoDB document: mappings, sequences,
strings, integers, booleans, None, bson ObjectId, bson Binary, raw bytes,
datetime (abstracted to a timestamp), and a constructor `other` for values
of any unknown or unsupported type, kept opaque. -/
inductive MValue where
  | dict (entries : List (String × MValue))
  | list (items : List MValue)
  | str (s : String)
  | int (n : Int)
  | bool (b : Bool)
  | null
  | objectId (s : String)
  | binary (bs : List Nat)
  | bytes (bs : List Nat)
  | datetime (t : Nat)
  | other (tag : Nat)

/-- Python dict lookup (`d.get(key)`), first matching key. -/
def lookupMV : List (String × MValue) → String → Option MValue
  | [], _ => none
  | (k, v) :: rest, key => if k = key then some v else lookupMV rest key

/-- Python dict item assignment `d[key] = v` for a key already present:
replaces the value at the first occurrence of the key, keeping position. -/
def setKeyMV : List (String × MValue) → String → MValue → List (String × MValue)
  | [], _, _ => []
  | (k, v) :: rest, key, nv =>
      if k = key then (k, nv) :: rest else (k, v) :: setKeyMV rest key nv

/-- The base64 alphabet, indexed 0..63. -/
def b64char (n : Nat) : Char :=
  "ABCDEFGHIJKLMNOPQRSTUVWXYZabcdefghijklmnopqrstuvwxyz0123456789+/".toList.getD n '='

/-- Standard base64 of a byte sequence (`base64.b64encode(..).decode("ascii")`). -/
def b64encode : List Nat → String
  | [] => ""
  | [a] =>
      let a := a % 256
      String.mk [b64char (a / 4), b64char (a % 4 * 16), '=', '=']
  | [a, b] =>
      let a := a % 256
      let b := b % 256
      String.mk [b64char (a / 4), b64char (a % 4 * 16 + b / 16), b64char (b % 16 * 4), '=']
  | a :: b :: c :: rest =>
      let a2 := a % 256
      let b2 := b % 256
      let c2 := c % 256
      String.mk [b64char (a2 / 4), b64char (a2 % 4 * 16 + b2 / 16),
        b64char (b2 % 16 * 4 + c2 / 64), b64char (c2 % 64)] ++ b64encode rest

/-- Python equality of a value against a string literal: true exactly when
the value is that string (`x == "lit"`). -/
def eqStr (v : MValue) (s : String) : Bool :=
  match v with
  | .str t => t = s
  | _ => false

/-- Python `x == "lit"` where x may be None (absent key). -/
def eqStrO (o : Option MValue) (s : String) : Bool :=
  match o with
  | some v => eqStr v s
  | none => false

/-- True for the types matched by `isinstance(content, (bytes, Binary))`. -/
def isBinLike : MValue → Bool
  | .binary _ => true
  | .bytes _ => true
  | _ => false

/-- The raw byte payload of a bytes or Binary value
(`bytes(content) if isinstance(content, Binary) else content`). -/
def binPayload : MValue → List Nat
  | .binary bs => bs
  | .bytes bs => bs
  | _ => []

/-- Lines 65 and 66 of mongodb_search_knowledge.py:
`file_type = doc.get("header", \x7b\x7d).get("type")` and
`file_name = doc.get("header", \x7b\x7d).get("file_name", "")`.
When the "header" field holds a non-mapping value, the second `.get` is an
attribute access on that value and raises AttributeError. -/
def headerInfo (entries : List (String × MValue)) : Except String (Option MValue × MValue) :=
  match lookupMV entries "header" with
  | none => .ok (none, .str "")
  | some (.dict h) => .ok (lookupMV h "type", (lookupMV h "file_name").getD (.str ""))
  | some _ => .error "AttributeError: object has no attribute get"

/-- Modelled from the spec: `app.utils.try_extract_pdf_text` is not part of
this repository. The spec states that PDF text extraction never raises and
that on extraction failure the result is an explicit empty/placeholder
text. The genuinely external extraction primitive is the parameter `pe`
(returning `none` on failure); the fallback to empty text is the modelled
behavior. -/
def try_extract_pdf_text (pe : List Nat → Option String) (bs : List Nat) : String :=
  (pe bs).getD ""

/-- Modelled from the spec: `app.utils.try_decode_json` is not part of this
repository. The spec states that JSON decoding falls back to the plain
base64 text encoding of the raw bytes on decode failure rather than
propagating an error. The genuinely external parse primitive is the
parameter `pj` (returning `none` on failure); the base64 fallback is the
modelled behavior. -/
def try_decode_json (pj : List Nat → Option MValue) (bs : List Nat) : MValue :=
  (pj bs).getD (.str (b64encode bs))

mutual

/-- `MongoDBKnowledgeTool._encode_mongo_document` (lines 43 to 108 of
mongodb_search_knowledge.py), parameterized by the two external helpers.
For a mapping: reads the header fields (which raises on a non-mapping
header), recursively encodes every entry, then, when a "content" field is
present, splices in the classified content: PDF-typed binary content is
replaced by extracted text; JSON-typed or .json-named binary content is
replaced by the decoded value; evaluating the file-name condition raises
when the file name is not a string. Sequences are encoded elementwise;
ObjectId becomes its string form, Binary and bytes become base64 text,
datetime becomes its text form, and any other value is returned
unchanged. -/
def _encode_mongo_document (pe : List Nat → Option String)
    (pj : List Nat → Option MValue) : MValue → Except String MValue
  | .dict entries => do
      let fi ← headerInfo entries
      let ne ← _encode_mongo_entries pe pj entries
      match lookupMV entries "content" with
      | none => pure (.dict ne)
      | some content =>
          if eqStrO fi.1 "application/pdf" && isBinLike content then
            pure (.dict (setKeyMV ne "content"
              (.str (try_extract_pdf_text pe (binPayload content)))))
          else if eqStrO fi.1 "application/json" then
            if isBinLike content then
              pure (.dict (setKeyMV ne "content"
                (try_decode_json pj (binPayload content))))
            else
              pure (.dict ne)
          else
            match fi.2 with
            | .str s =>
                if s.toLower.endsWith ".json" && isBinLike content then
                  pure (.dict (setKeyMV ne "content"
                    (try_decode_json pj (binPayload content))))
                else
                  pure (.dict ne)
            | _ => .error "AttributeError: object has no attribute lower"
  | .list items => do
      let ni ← _encode_mongo_list pe pj items
      pure (.list ni)
  | .str s => pure (.str s)
  | .int n => pure (.int n)
  | .bool b => pure (.bool b)
  | .null => pure .null
  | .objectId s => pure (.str s)
  | .binary bs => pure (.str (b64encode bs))
  | .datetime t => pure (.str (toString t))
  | .bytes bs => pure (.str (b64encode bs))
  | .other tag => pure (.other tag)

/-- The dict comprehension of line 67:
`new_doc = \x7bk: self._encode_mongo_document(v) for k, v in doc.items()\x7d`. -/
def _encode_mongo_entries (pe : List Nat → Option String)
    (pj : List Nat → Option MValue) :
    List (String × MValue) → Except String (List (String × MValue))
  | [] => pure []
  | (k, v) :: rest => do
      let nv ← _encode_mongo_document pe pj v
      let nrest ← _encode_mongo_entries pe pj rest
      pure ((k, nv) :: nrest)

/-- The list comprehension of line 98:
`[self._encode_mongo_document(item) for item in doc]`. -/
def _encode_mongo_list (pe : List Nat → Option String)
    (pj : List Nat → Option MValue) : List MValue → Except String (List MValue)
  | [] => pure []
  | v :: rest => do
      let nv ← _encode_mongo_document pe pj v
      let nrest ← _encode_mongo_list pe pj rest
      pure (nv :: nrest)

end

/-- Well-formedness of the header fields of one mapping level: the "header"
field, when present, is itself a mapping, and that mapping holds a string
under "file_name" when the key is present. Exactly the condition under
which lines 65, 66 and 86 of the source cannot raise. -/
def goodHeader (entries : List (String × MValue)) : Bool :=
  match lookupMV entries "header" with
  | none => true
  | some (.dict h) =>
      match lookupMV h "file_name" with
      | none => true
      | some (.str _) => true
      | some _ => false
  | some _ => false

mutual

/-- Every mapping reachable from the value satisfies `goodHeader`. -/
def goodVal : MValue → Bool
  | .dict entries => goodHeader entries && goodEntries entries
  | .list items => goodItems items
  | _ => true

def goodEntries : List (String × MValue) → Bool
  | [] => true
  | (_, v) :: rest => goodVal v && goodEntries rest

def goodItems : List MValue → Bool
  | [] => true
  | v :: rest => goodVal v && goodItems rest

end

mutual

/-- The value holds no store-native leaf: no ObjectId, Binary, raw bytes or
datetime anywhere. Outputs of a successful normalization are plain. -/
def plainVal : MValue → Bool
  | .dict entries => plainEntries entries
  | .list items => plainItems items
  | .objectId _ => false
  | .binary _ => false
  | .bytes _ => false
  | .datetime _ => false
  | _ => true

def plainEntries : List (String × MValue) → Bool
  | [] => true
  | (_, v) :: rest => plainVal v && plainEntries rest

def plainItems : List MValue → Bool
  | [] => true
  | v :: rest => plainVal v && plainItems rest

end

/-- The property the spec requires of the external JSON decode primitive
for idempotence: decoded values are plain and well headered. -/
def pjGood (pj : List Nat → Option MValue) : Prop :=
  ∀ bs w, pj bs = some w → plainVal w = true ∧ goodVal w = true

/-- A concrete header mapping declaring a PDF payload, used as a witness
input. -/
def pdfDocHeader : MValue :=
  .dict [("type", .str "application/pdf"), ("file_name", .str "doc.pdf")]

/-- A concrete document with binary content declared as PDF, used as a
witness input. -/
def pdfDoc : List (String × MValue) := [("header", pdfDocHeader), ("content", .bytes [1, 2])]

/-- The normalization of `pdfDoc` under an extractor returning "TEXT". -/
def pdfDocResult : MValue := .dict [("header", pdfDocHeader), ("content", .str "TEXT")]

/-- Python truthiness of an embedded value (`if result:`): empty
containers, the empty string, zero, False and None are falsy; every other
value here is truthy. -/
def pyTruthy : MValue → Bool
  | .dict entries => !entries.isEmpty
  | .list items => !items.isEmpty
  | .str s => !s.isEmpty
  | .int n => n != 0
  | .bool b => b
  | .null => false
  | .objectId _ => true
  | .binary bs => !bs.isEmpty
  | .bytes bs => !bs.isEmpty
  | .datetime _ => true
  | .other _ => true

/-- The single-quote character as a string, written by code point. -/
def squote : String := String.mk [Char.ofNat 39]

/-- Modelled from the spec: the MongoDB collection handle
(`app.database.mongo_db` and its `get_or_create_collection`) is not part
of this repository; the spec treats it as an opaque client whose read
operations may fault. Each operation returns either its data or a raised
store fault with a message. `find` receives the limit only when the caller
passed a positive one and the sort only when the caller passed a non-empty
one, mirroring the cursor configuration of lines 159 to 164. -/
structure Collection where
  find : List (String × MValue) → Option Int → Option (List (String × MValue)) →
    Except String (List MValue)
  find_one : List (String × MValue) → Except String (Option MValue)
  count_documents : List (String × MValue) → Except String Nat

/-- The try block of execute_operation (lines 157 to 193): dispatch on the
operation string; "find" encodes every returned document, "find_one"
encodes a truthy result and returns a falsy one unchanged, "count" returns
the cardinality, and any other operation returns the tagged
unsupported-operation error from inside the try block. Document encoding
happens inside the block, so its faults are caught by the handler too. -/
def execute_try (col : Collection) (pe : List Nat → Option String)
    (pj : List Nat → Option MValue) (operation : String)
    (filter : List (String × MValue)) (limit : Int)
    (sort : Option (List (String × MValue))) :
    Except String (List (String × MValue)) :=
  if operation = "find" then do
    let docs ← col.find filter (if limit > 0 then some limit else none)
      (match sort with
        | some (x :: xs) => some (x :: xs)
        | _ => none)
    let encoded ← _encode_mongo_list pe pj docs
    pure [("results", .list encoded)]
  else if operation = "find_one" then do
    let r ← col.find_one filter
    match r with
    | none => pure [("result", .null)]
    | some d =>
        if pyTruthy d then do
          let e ← _encode_mongo_document pe pj d
          pure [("result", e)]
        else pure [("result", d)]
  else if operation = "count" then do
    let n ← col.count_documents filter
    pure [("count", .int n)]
  else
    pure [("error", .str ("Operation " ++ squote ++ operation ++ squote ++ " is not supported"))]

/-- MongoDBKnowledgeTool.execute_operation (lines 110 to 193), on a tool
whose collection handle is available (the lazy initialization of lines 143
and 144 retrieves the pre-constructed handle, which the spec provides to
the tool from outside). A None filter defaults to the empty mapping. An
empty operation is rejected before the try block; any fault raised inside
the try block is caught by the catch-all handler of lines 191 to 193 and
translated into the tagged database-operation-failed error, so the
function returns a mapping on every input. -/
def execute_operation (col : Collection) (pe : List Nat → Option String)
    (pj : List Nat → Option MValue) (operation : String)
    (filter : Option (List (String × MValue))) (limit : Int)
    (sort : Option (List (String × MValue))) : List (String × MValue) :=
  if operation = "" then [("error", .str "Operation is required")]
  else
    match execute_try col pe pj operation (filter.getD []) limit sort with
    | .ok r => r
    | .error e => [("error", .str ("Database operation failed: " ++ e))]

/-- A collection whose every operation raises a store fault, used as a
witness input. -/
def errorCollection : Collection where
  find := fun _ _ _ => .error "boom"
  find_one := fun _ => .error "boom"
  count_documents := fun _ => .error "boom"

/-- A value appearing in a JSON-serializable result row of the PostgreSQL
tool. The embedding keeps the Python type tag, so that claims about
string-valued versus boolean-valued fields are expressible. -/
inductive JVal where
  | str (s : String)
  | bool (b : Bool)
  | int (n : Int)
  | null
deriving DecidableEq, Repr

/-- Lookup in a result record. -/
def lookupJ : List (String × JVal) → String → Option JVal
  | [], _ => none
  | (k, v) :: rest, key => if k = key then some v else lookupJ rest key

/-- One row of information_schema.columns for a table, in ordinal order:
the seven fields selected by get_table_details; the structure query of
lines 64 to 74 selects the first three of them. is_nullable is the catalog
string "YES" or "NO". -/
structure ColRow where
  column_name : String
  data_type : String
  is_nullable : String
  column_default : Option String
  character_maximum_length : Option Int
  numeric_precision : Option Int
  numeric_scale : Option Int
deriving DecidableEq, Repr

/-- One foreign-key edge row as returned by the constraint-catalog join of
lines 88 to 102. -/
structure FKRow where
  from_table : String
  from_column : String
  to_table : String
  to_column : String
deriving DecidableEq, Repr

/-- Modelled from the spec: the information_schema catalog of the
connected PostgreSQL database, which is external to the repository. It
answers the four catalog queries the tool issues: tableNames is the result
of the tables query (returned ordered by name by the store), columnRows
the per-table column rows in ordinal order, pkColumns the primary-key
column names from the constraint-catalog join, and fkRows the foreign-key
rows in catalog scan order. -/
structure Catalog where
  tableNames : List String
  columnRows : String → List ColRow
  pkColumns : String → List String
  fkRows : List FKRow

/-- The PostgreSQLTool state: the `_initialized` flag and the connection,
modelled by whether it is open. -/
structure PGState where
  inited : Bool
  connOpen : Bool
  catalog : Catalog

/-- A fault raised by the PostgreSQL tool: the RuntimeError of lines 52 and
117 ("Tool not initialized"), or the driver fault raised when a cursor is
requested on a closed connection. -/
inductive PGErr where
  | notInited
  | connClosed
deriving DecidableEq, Repr

/-- PostgreSQLTool.initialize (lines 19 to 26): idempotent; on the first
call it opens the connection and sets the flag. The connect call itself is
external and the spec supplies a valid connection string, so it is
modelled as succeeding. -/
def pgInit (st : PGState) : PGState :=
  if st.inited then st
  else { st with inited := true, connOpen := true }

/-- PostgreSQLTool.close (lines 28 to 32): closes the connection when one
exists; the `_initialized` flag is not touched by any line of close. -/
def pgClose (st : PGState) : PGState := { st with connOpen := false }

/-- One row fetched from a driver cursor: the four catalog queries of the
structure path return rows of four different shapes. -/
inductive CatRow where
  | tname (t : String)
  | col (r : ColRow)
  | pk (c : String)
  | fk (r : FKRow)
deriving DecidableEq, Repr

/-- A driver cursor, as obtained at line 54 and shared by every query of
get_database_structure: it holds the pending (not yet fetched) rows of the
most recently executed query. Per the DB-API semantics of the driver,
execute replaces the pending result set with the new query rows, and
fetchall returns the pending rows and leaves the result set consumed, so a
second fetchall on the same result set returns the empty list. -/
structure Cursor where
  pending : List CatRow
deriving DecidableEq, Repr

/-- cursor.execute of the tables query (lines 55 to 61): the previous
result set is discarded. -/
def execTablesQuery (st : PGState) (_cur : Cursor) : Cursor :=
  ⟨st.catalog.tableNames.map .tname⟩

/-- cursor.execute of the per-table columns query (lines 64 to 74). -/
def execColumnsQuery (st : PGState) (t : String) (_cur : Cursor) : Cursor :=
  ⟨(st.catalog.columnRows t).map .col⟩

/-- cursor.execute of the primary-key query (lines 35 to 46). -/
def execPKQuery (st : PGState) (t : String) (_cur : Cursor) : Cursor :=
  ⟨(st.catalog.pkColumns t).map .pk⟩

/-- cursor.execute of the foreign-key query (lines 88 to 102). -/
def execFKQuery (st : PGState) (_cur : Cursor) : Cursor :=
  ⟨st.catalog.fkRows.map .fk⟩

/-- cursor.fetchall(): returns every pending row and leaves the result set
consumed. -/
def fetchAll (cur : Cursor) : List CatRow × Cursor := (cur.pending, ⟨[]⟩)

/-- PostgreSQLTool._get_primary_keys (lines 34 to 47): executes the
primary-key query on the cursor it is handed and fetches all of its rows,
returning the primary-key column names of the table (membership in them is
what line 83 tests); the cursor comes back with its result set consumed. -/
def _get_primary_keys (st : PGState) (table : String) (cur : Cursor) :
    List String × Cursor :=
  let cur2 := execPKQuery st table cur
  let rc := fetchAll cur2
  (rc.1.filterMap (fun r => match r with | .pk c => some c | _ => none), rc.2)

/-- One column record of the structure result (lines 78 to 85): name and
type strings, the is_nullable catalog string forwarded verbatim under the
key "nullable", and the boolean primary-key flag computed by membership of
the column name in the primary-key set. -/
def structureColumn (pk : List String) (r : ColRow) : List (String × JVal) :=
  [("name", .str r.column_name), ("type", .str r.data_type),
   ("nullable", .str r.is_nullable),
   ("is_primary_key", .bool (pk.contains r.column_name))]

/-- One relation record (lines 104 to 111). -/
def relationRecord (r : FKRow) : List (String × JVal) :=
  [("from_table", .str r.from_table), ("from_column", .str r.from_column),
   ("to_table", .str r.to_table), ("to_column", .str r.to_column)]

/-- The per-table entry of the structure result (line 86):
`result["tables"][table] = \x7b"columns": columns\x7d`. -/
structure TableEntry where
  columns : List (List (String × JVal))
deriving DecidableEq, Repr

/-- The full structure result (line 53):
`\x7b"tables": \x7b\x7d, "relations": []\x7d` filled in. -/
structure StructureResult where
  tables : List (String × TableEntry)
  relations : List (List (String × JVal))
deriving DecidableEq, Repr

/-- PostgreSQLTool.get_database_structure (lines 49 to 112): raises the
not-initialized RuntimeError when the flag is unset; requesting a cursor
on a closed connection raises a driver fault; otherwise it runs every
catalog query on the one shared cursor. For each table the columns query
is executed (line 64), then _get_primary_keys re-executes and fetches the
primary-key query on that same cursor (line 76), discarding the pending
column rows, so the fetchall of line 77 finds an already consumed result
set and yields no rows: the loop of lines 78 to 85, which would build each
column record with the verbatim is_nullable string and the membership
primary-key flag, never runs, and every table entry gets an empty columns
list. The foreign-key query of lines 88 to 103 is a cleanly paired
execute/fetchall, so its relation records are produced. -/
def get_database_structure (st : PGState) : Except PGErr StructureResult :=
  if !st.inited then .error .notInited
  else if !st.connOpen then .error .connClosed
  else
    let cur1 := execTablesQuery st ⟨[]⟩
    let tr := fetchAll cur1
    let tables := tr.1.filterMap (fun r => match r with | .tname t => some t | _ => none)
    let folded := tables.foldl
      (fun (acc : List (String × TableEntry) × Cursor) t =>
        let curA := execColumnsQuery st t acc.2
        let pkc := _get_primary_keys st t curA
        let rows := fetchAll pkc.2
        let cols := rows.1.filterMap
          (fun r => match r with
            | .col c => some (structureColumn pkc.1 c)
            | _ => none)
        (acc.1 ++ [(t, ⟨cols⟩)], rows.2))
      ([], tr.2)
    let cur4 := execFKQuery st folded.2
    let fr := fetchAll cur4
    .ok { tables := folded.1,
          relations := fr.1.filterMap
            (fun r => match r with | .fk f => some (relationRecord f) | _ => none) }

/-- One detailed column record of get_table_details (line 134,
`dict(row)`): the seven selected catalog fields under their SQL names,
SQL NULL values becoming JSON null. -/
def detailColumn (r : ColRow) : List (String × JVal) :=
  [("column_name", .str r.column_name), ("data_type", .str r.data_type),
   ("is_nullable", .str r.is_nullable),
   ("column_default",
     match r.column_default with | some s => .str s | none => .null),
   ("character_maximum_length",
     match r.character_maximum_length with | some n => .int n | none => .null),
   ("numeric_precision",
     match r.numeric_precision with | some n => .int n | none => .null),
   ("numeric_scale",
     match r.numeric_scale with | some n => .int n | none => .null)]

/-- The result of get_table_details (line 135):
`\x7b"table": table, "columns": columns\x7d`. -/
structure TableDetails where
  table : String
  columns : List (List (String × JVal))
deriving DecidableEq, Repr

/-- PostgreSQLTool.get_table_details (lines 114 to 135): the same
initialization guard, then one catalog query for the named table with no
existence check. -/
def get_table_details (st : PGState) (table : String) : Except PGErr TableDetails :=
  if !st.inited then .error .notInited
  else if !st.connOpen then .error .connClosed
  else .ok { table := table, columns := (st.catalog.columnRows table).map detailColumn }

/-- The users/orders example catalog of the spec: users(id PK, name) and
orders(id PK, user_id FK referencing users.id); the tables query returns
names in alphabetical order. -/
def usersOrdersCatalog : Catalog where
  tableNames := ["orders", "users"]
  columnRows := fun t =>
    if t = "users" then
      [⟨"id", "integer", "NO", none, none, some 32, some 0⟩,
       ⟨"name", "text", "YES", none, none, none, none⟩]
    else if t = "orders" then
      [⟨"id", "integer", "NO", none, none, some 32, some 0⟩,
       ⟨"user_id", "integer", "YES", none, none, some 32, some 0⟩]
    else []
  pkColumns := fun t =>
    if t = "users" then ["id"] else if t = "orders" then ["id"] else []
  fkRows := [⟨"orders", "user_id", "users", "id"⟩]

/-- The users/orders catalog behind a tool in the Ready state. -/
def usersOrdersReady : PGState :=
  { inited := true, connOpen := true, catalog := usersOrdersCatalog }

/-- The users/orders catalog behind a tool that was never initialized. -/
def usersOrdersUnready : PGState :=
  { inited := false, connOpen := false, catalog := usersOrdersCatalog }

theorem exc_bind_ok {α β ε : Type} (a : α) (f : α → Except ε β) :
    (Except.ok a : Except ε α) >>= f = f a := rfl

theorem exc_bind_err {α β ε : Type} (e : ε) (f : α → Except ε β) :
    (Except.error e : Except ε α) >>= f = .error e := rfl

theorem exc_pure {α ε : Type} (a : α) : (pure a : Except ε α) = .ok a := rfl

theorem headerInfo_ok_of_good {entries : List (String × MValue)}
    (h : goodHeader entries = true) :
    ∃ ft s, headerInfo entries = .ok (ft, .str s) := by
  unfold goodHeader at h
  unfold headerInfo
  cases hl : lookupMV entries "header" with
  | none => exact ⟨none, "", rfl⟩
  | some v =>
    rw [hl] at h
    cases v with
    | dict hh =>
      dsimp only at h ⊢
      cases hf : lookupMV hh "file_name" with
      | none => exact ⟨lookupMV hh "type", "", rfl⟩
      | some fv =>
        rw [hf] at h
        cases fv <;> simp at h
        rename_i s
        exact ⟨lookupMV hh "type", s, rfl⟩
    | list items => simp at h
    | str s => simp at h
    | int n => simp at h
    | bool b => simp at h
    | null => simp at h
    | objectId s => simp at h
    | binary bs => simp at h
    | bytes bs => simp at h
    | datetime t => simp at h
    | other tag => simp at h

theorem plain_lookup {entries : List (String × MValue)} {k : String} {v : MValue}
    (hp : plainEntries entries = true) (hl : lookupMV entries k = some v) :
    plainVal v = true := by
  induction entries with
  | nil => simp [lookupMV] at hl
  | cons e rest ih =>
    obtain ⟨ek, ev⟩ := e
    simp [plainEntries, Bool.and_eq_true] at hp
    simp [lookupMV] at hl
    by_cases hk : ek = k
    · simp [hk] at hl; subst hl; exact hp.1
    · simp [hk] at hl; exact ih hp.2 hl

theorem good_lookup {entries : List (String × MValue)} {k : String} {v : MValue}
    (hp : goodEntries entries = true) (hl : lookupMV entries k = some v) :
    goodVal v = true := by
  induction entries with
  | nil => simp [lookupMV] at hl
  | cons e rest ih =>
    obtain ⟨ek, ev⟩ := e
    simp [goodEntries, Bool.and_eq_true] at hp
    simp [lookupMV] at hl
    by_cases hk : ek = k
    · simp [hk] at hl; subst hl; exact hp.1
    · simp [hk] at hl; exact ih hp.2 hl

theorem isBinLike_false_of_plain {v : MValue} (h : plainVal v = true) :
    isBinLike v = false := by
  cases v <;> simp_all [plainVal, isBinLike]

mutual

/-- A plain, well-headered value is a fixed point of the normalizer. -/
theorem enc_fix (pe : List Nat → Option String) (pj : List Nat → Option MValue) :
    ∀ v : MValue, plainVal v = true → goodVal v = true →
      _encode_mongo_document pe pj v = .ok v
  | .dict entries => fun hp hg => by
      simp only [plainVal] at hp
      simp only [goodVal, Bool.and_eq_true] at hg
      obtain ⟨hgh, hge⟩ := hg
      obtain ⟨ft, s, hhi⟩ := headerInfo_ok_of_good hgh
      have hne := enc_fix_entries pe pj entries hp hge
      rw [_encode_mongo_document, hhi, exc_bind_ok, hne, exc_bind_ok]
      cases hc : lookupMV entries "content" with
      | none => rfl
      | some c =>
        have hcb : isBinLike c = false :=
          isBinLike_false_of_plain (plain_lookup hp hc)
        simp only [hcb, Bool.and_false, if_false]
        cases hj : eqStrO ft "application/json" <;> simp [hj, exc_pure]
  | .list items => fun hp hg => by
      simp only [plainVal] at hp
      simp only [goodVal] at hg
      have hni := enc_fix_items pe pj items hp hg
      rw [_encode_mongo_document, hni, exc_bind_ok]
      rfl
  | .str s => fun _ _ => rfl
  | .int n => fun _ _ => rfl
  | .bool b => fun _ _ => rfl
  | .null => fun _ _ => rfl
  | .objectId s => fun hp _ => by simp [plainVal] at hp
  | .binary bs => fun hp _ => by simp [plainVal] at hp
  | .bytes bs => fun hp _ => by simp [plainVal] at hp
  | .datetime t => fun hp _ => by simp [plainVal] at hp
  | .other tag => fun _ _ => rfl

theorem enc_fix_entries (pe : List Nat → Option String) (pj : List Nat → Option MValue) :
    ∀ entries : List (String × MValue), plainEntries entries = true →
      goodEntries entries = true →
      _encode_mongo_entries pe pj entries = .ok entries
  | [] => fun _ _ => rfl
  | (k, v) :: rest => fun hp hg => by
      simp only [plainEntries, Bool.and_eq_true] at hp
      simp only [goodEntries, Bool.and_eq_true] at hg
      have h1 := enc_fix pe pj v hp.1 hg.1
      have h2 := enc_fix_entries pe pj rest hp.2 hg.2
      rw [_encode_mongo_entries, h1, exc_bind_ok, h2, exc_bind_ok]
      rfl

theorem enc_fix_items (pe : List Nat → Option String) (pj : List Nat → Option MValue) :
    ∀ items : List MValue, plainItems items = true → goodItems items = true →
      _encode_mongo_list pe pj items = .ok items
  | [] => fun _ _ => rfl
  | v :: rest => fun hp hg => by
      simp only [plainItems, Bool.and_eq_true] at hp
      simp only [goodItems, Bool.and_eq_true] at hg
      have h1 := enc_fix pe pj v hp.1 hg.1
      have h2 := enc_fix_items pe pj rest hp.2 hg.2
      rw [_encode_mongo_list, h1, exc_bind_ok, h2, exc_bind_ok]
      rfl

end

theorem exc_bind_ok_inv {α β : Type} {ma : Except String α} {f : α → Except String β} {b : β}
    (h : ma >>= f = .ok b) : ∃ a, ma = .ok a ∧ f a = .ok b := by
  cases ma with
  | error e => exact Except.noConfusion h
  | ok a => exact ⟨a, rfl, h⟩

mutual

/-- On values all of whose reachable headers are well formed, the
normalizer never raises. -/
theorem enc_total (pe : List Nat → Option String) (pj : List Nat → Option MValue) :
    ∀ v : MValue, goodVal v = true → ∃ r, _encode_mongo_document pe pj v = .ok r
  | .dict entries => fun hg => by
      simp only [goodVal, Bool.and_eq_true] at hg
      obtain ⟨hgh, hge⟩ := hg
      obtain ⟨ft, s, hhi⟩ := headerInfo_ok_of_good hgh
      obtain ⟨ne, hne⟩ := enc_total_entries pe pj entries hge
      rw [_encode_mongo_document, hhi, exc_bind_ok, hne, exc_bind_ok]
      cases hc : lookupMV entries "content" with
      | none => exact ⟨_, rfl⟩
      | some c =>
        dsimp only
        split
        · exact ⟨_, rfl⟩
        · split
          · split
            · exact ⟨_, rfl⟩
            · exact ⟨_, rfl⟩
          · split
            · exact ⟨_, rfl⟩
            · exact ⟨_, rfl⟩
  | .list items => fun hg => by
      simp only [goodVal] at hg
      obtain ⟨ni, hni⟩ := enc_total_items pe pj items hg
      exact ⟨.list ni, by rw [_encode_mongo_document, hni, exc_bind_ok]; rfl⟩
  | .str s => fun _ => ⟨.str s, rfl⟩
  | .int n => fun _ => ⟨.int n, rfl⟩
  | .bool b => fun _ => ⟨.bool b, rfl⟩
  | .null => fun _ => ⟨.null, rfl⟩
  | .objectId s => fun _ => ⟨.str s, rfl⟩
  | .binary bs => fun _ => ⟨.str (b64encode bs), rfl⟩
  | .bytes bs => fun _ => ⟨.str (b64encode bs), rfl⟩
  | .datetime t => fun _ => ⟨.str (toString t), rfl⟩
  | .other tag => fun _ => ⟨.other tag, rfl⟩

theorem enc_total_entries (pe : List Nat → Option String) (pj : List Nat → Option MValue) :
    ∀ entries : List (String × MValue), goodEntries entries = true →
      ∃ ne, _encode_mongo_entries pe pj entries = .ok ne
  | [] => fun _ => ⟨[], rfl⟩
  | (k, v) :: rest => fun hg => by
      simp only [goodEntries, Bool.and_eq_true] at hg
      obtain ⟨w, hw⟩ := enc_total pe pj v hg.1
      obtain ⟨nrest, hnrest⟩ := enc_total_entries pe pj rest hg.2
      exact ⟨(k, w) :: nrest,
        by rw [_encode_mongo_entries, hw, exc_bind_ok, hnrest, exc_bind_ok]; rfl⟩

theorem enc_total_items (pe : List Nat → Option String) (pj : List Nat → Option MValue) :
    ∀ items : List MValue, goodItems items = true →
      ∃ ni, _encode_mongo_list pe pj items = .ok ni
  | [] => fun _ => ⟨[], rfl⟩
  | v :: rest => fun hg => by
      simp only [goodItems, Bool.and_eq_true] at hg
      obtain ⟨w, hw⟩ := enc_total pe pj v hg.1
      obtain ⟨nrest, hnrest⟩ := enc_total_items pe pj rest hg.2
      exact ⟨w :: nrest,
        by rw [_encode_mongo_list, hw, exc_bind_ok, hnrest, exc_bind_ok]; rfl⟩

end

theorem lookupMV_setKeyMV_ne (l : List (String × MValue)) (k key : String) (nv : MValue)
    (h : k ≠ key) : lookupMV (setKeyMV l key nv) k = lookupMV l k := by
  induction l with
  | nil => rfl
  | cons e rest ih =>
    obtain ⟨ek, ev⟩ := e
    by_cases hk : ek = key
    · simp only [setKeyMV, if_pos hk, lookupMV]
      have : ¬ ek = k := fun hek => h (hek ▸ hk)
      simp [this]
    · simp only [setKeyMV, if_neg hk, lookupMV]
      by_cases hek : ek = k
      · simp [hek]
      · simp [hek, ih]

theorem plainEntries_setKeyMV (l : List (String × MValue)) (key : String) (nv : MValue)
    (hl : plainEntries l = true) (hv : plainVal nv = true) :
    plainEntries (setKeyMV l key nv) = true := by
  induction l with
  | nil => rfl
  | cons e rest ih =>
    obtain ⟨ek, ev⟩ := e
    simp only [plainEntries, Bool.and_eq_true] at hl
    by_cases hk : ek = key
    · simp only [setKeyMV, if_pos hk, plainEntries, Bool.and_eq_true]
      exact ⟨hv, hl.2⟩
    · simp only [setKeyMV, if_neg hk, plainEntries, Bool.and_eq_true]
      exact ⟨hl.1, ih hl.2⟩

theorem goodEntries_setKeyMV (l : List (String × MValue)) (key : String) (nv : MValue)
    (hl : goodEntries l = true) (hv : goodVal nv = true) :
    goodEntries (setKeyMV l key nv) = true := by
  induction l with
  | nil => rfl
  | cons e rest ih =>
    obtain ⟨ek, ev⟩ := e
    simp only [goodEntries, Bool.and_eq_true] at hl
    by_cases hk : ek = key
    · simp only [setKeyMV, if_pos hk, goodEntries, Bool.and_eq_true]
      exact ⟨hv, hl.2⟩
    · simp only [setKeyMV, if_neg hk, goodEntries, Bool.and_eq_true]
      exact ⟨hl.1, ih hl.2⟩

theorem goodHeader_setKeyMV (l : List (String × MValue)) (nv : MValue)
    (hl : goodHeader l = true) : goodHeader (setKeyMV l "content" nv) = true := by
  unfold goodHeader at hl ⊢
  rw [lookupMV_setKeyMV_ne l "header" "content" nv (by decide)]
  exact hl

theorem enc_entries_lookup_none (pe : List Nat → Option String)
    (pj : List Nat → Option MValue) {entries ne : List (String × MValue)} {k : String}
    (he : _encode_mongo_entries pe pj entries = .ok ne)
    (hk : lookupMV entries k = none) : lookupMV ne k = none := by
  induction entries generalizing ne with
  | nil =>
    have : ne = ([] : List (String × MValue)) := by
      have h2 : (Except.ok [] : Except String (List (String × MValue))) = .ok ne := he
      exact (Except.ok.inj h2).symm
    subst this
    rfl
  | cons e rest ih =>
    obtain ⟨ek, ev⟩ := e
    rw [_encode_mongo_entries] at he
    obtain ⟨w, hw, he⟩ := exc_bind_ok_inv he
    obtain ⟨nrest, hnr, he⟩ := exc_bind_ok_inv he
    have hne : ne = (ek, w) :: nrest := by
      have h2 : (Except.ok ((ek, w) :: nrest) : Except String (List (String × MValue))) = .ok ne := he
      exact (Except.ok.inj h2).symm
    subst hne
    simp only [lookupMV] at hk ⊢
    by_cases hek : ek = k
    · simp [hek] at hk
    · simp only [if_neg hek] at hk ⊢
      exact ih hnr hk

theorem enc_entries_lookup_some (pe : List Nat → Option String)
    (pj : List Nat → Option MValue) {entries ne : List (String × MValue)} {k : String}
    {v : MValue} (he : _encode_mongo_entries pe pj entries = .ok ne)
    (hk : lookupMV entries k = some v) :
    ∃ w, _encode_mongo_document pe pj v = .ok w ∧ lookupMV ne k = some w := by
  induction entries generalizing ne with
  | nil => simp [lookupMV] at hk
  | cons e rest ih =>
    obtain ⟨ek, ev⟩ := e
    rw [_encode_mongo_entries] at he
    obtain ⟨w, hw, he⟩ := exc_bind_ok_inv he
    obtain ⟨nrest, hnr, he⟩ := exc_bind_ok_inv he
    have hne : ne = (ek, w) :: nrest := by
      have h2 : (Except.ok ((ek, w) :: nrest) : Except String (List (String × MValue))) = .ok ne := he
      exact (Except.ok.inj h2).symm
    subst hne
    simp only [lookupMV] at hk ⊢
    by_cases hek : ek = k
    · simp only [if_pos hek] at hk ⊢
      exact ⟨w, Option.some.inj hk ▸ hw, rfl⟩
    · simp only [if_neg hek] at hk ⊢
      exact ih hnr hk

/-- Inversion of the normalizer on a mapping: the result is the entrywise
encoding, possibly with the "content" value replaced. -/
theorem enc_dict_inv (pe : List Nat → Option String) (pj : List Nat → Option MValue)
    {h : List (String × MValue)} {w : MValue}
    (he : _encode_mongo_document pe pj (.dict h) = .ok w) :
    ∃ ne, _encode_mongo_entries pe pj h = .ok ne ∧
      (w = .dict ne ∨ ∃ x, w = .dict (setKeyMV ne "content" x)) := by
  rw [_encode_mongo_document] at he
  obtain ⟨fi, hfi, he⟩ := exc_bind_ok_inv he
  obtain ⟨ne, hne, he⟩ := exc_bind_ok_inv he
  refine ⟨ne, hne, ?_⟩
  cases hc : lookupMV h "content" with
  | none =>
    rw [hc] at he
    dsimp only at he
    have h2 : (Except.ok (MValue.dict ne) : Except String MValue) = .ok w := he
    exact Or.inl (Except.ok.inj h2).symm
  | some c =>
    rw [hc] at he
    dsimp only at he
    split at he
    · exact Or.inr ⟨_, ((Except.ok.inj he).symm : w = _)⟩
    · split at he
      · split at he
        · exact Or.inr ⟨_, ((Except.ok.inj he).symm : w = _)⟩
        · have h2 : (Except.ok (MValue.dict ne) : Except String MValue) = .ok w := he
          exact Or.inl (Except.ok.inj h2).symm
      · split at he
        · rename_i s hs
          split at he
          · exact Or.inr ⟨_, ((Except.ok.inj he).symm : w = _)⟩
          · have h2 : (Except.ok (MValue.dict ne) : Except String MValue) = .ok w := he
            exact Or.inl (Except.ok.inj h2).symm
        · exact Except.noConfusion he

/-- Entrywise encoding preserves well-formedness of the header fields of
the level it is applied to. -/
theorem goodHeader_pres (pe : List Nat → Option String) (pj : List Nat → Option MValue)
    {entries ne : List (String × MValue)} (hgh : goodHeader entries = true)
    (he : _encode_mongo_entries pe pj entries = .ok ne) : goodHeader ne = true := by
  unfold goodHeader at hgh ⊢
  cases hh : lookupMV entries "header" with
  | none => rw [enc_entries_lookup_none pe pj he hh]
  | some v =>
    rw [hh] at hgh
    obtain ⟨w, hw, hlw⟩ := enc_entries_lookup_some pe pj he hh
    rw [hlw]
    cases v with
    | dict h2 =>
      obtain ⟨ne2, hne2, hcase⟩ := enc_dict_inv pe pj hw
      dsimp only at hgh
      have hkey : ∀ l2 : List (String × MValue),
          lookupMV l2 "file_name" = lookupMV ne2 "file_name" →
          (match some (MValue.dict l2) with
            | none => true
            | some (MValue.dict h) =>
              match lookupMV h "file_name" with
              | none => true
              | some (MValue.str _) => true
              | some _ => false
            | some _ => false) = true := by
        intro l2 hl2
        dsimp only
        rw [hl2]
        cases hf : lookupMV h2 "file_name" with
        | none => rw [enc_entries_lookup_none pe pj hne2 hf]
        | some fv =>
          rw [hf] at hgh
          cases fv <;> simp at hgh
          rename_i s2
          obtain ⟨w2, hw2, hlw2⟩ := enc_entries_lookup_some pe pj hne2 hf
          have h3 : (Except.ok (MValue.str s2) : Except String MValue) = .ok w2 := hw2
          rw [hlw2, ← Except.ok.inj h3]
      cases hcase with
      | inl hd => subst hd; exact hkey ne2 rfl
      | inr hx =>
        obtain ⟨x, hx⟩ := hx
        subst hx
        exact hkey _ (lookupMV_setKeyMV_ne ne2 "file_name" "content" x (by decide))
    | list items => simp at hgh
    | str s => simp at hgh
    | int n => simp at hgh
    | bool b => simp at hgh
    | null => simp at hgh
    | objectId s => simp at hgh
    | binary bs => simp at hgh
    | bytes bs => simp at hgh
    | datetime t => simp at hgh
    | other tag => simp at hgh

theorem try_decode_json_ok (pj : List Nat → Option MValue) (hpj : pjGood pj)
    (bs : List Nat) :
    plainVal (try_decode_json pj bs) = true ∧ goodVal (try_decode_json pj bs) = true := by
  unfold try_decode_json
  cases h : pj bs with
  | none => exact ⟨rfl, rfl⟩
  | some w => exact hpj bs w h

mutual

/-- Outputs of a successful normalization are plain and, when the input is
well headered and the JSON decode primitive yields only plain well-headered
values, well headered themselves. -/
theorem enc_pres (pe : List Nat → Option String) (pj : List Nat → Option MValue)
    (hpj : pjGood pj) :
    ∀ v r, goodVal v = true → _encode_mongo_document pe pj v = .ok r →
      plainVal r = true ∧ goodVal r = true
  | .dict entries => fun r hg he => by
      simp only [goodVal, Bool.and_eq_true] at hg
      obtain ⟨hgh, hge⟩ := hg
      obtain ⟨ft, s, hhi⟩ := headerInfo_ok_of_good hgh
      rw [_encode_mongo_document, hhi, exc_bind_ok] at he
      obtain ⟨ne, hne, he⟩ := exc_bind_ok_inv he
      obtain ⟨hpe, hgee⟩ := enc_pres_entries pe pj hpj entries ne hge hne
      have hgh2 := goodHeader_pres pe pj hgh hne
      have hdict : plainVal (MValue.dict ne) = true ∧ goodVal (MValue.dict ne) = true := by
        exact ⟨by simpa [plainVal] using hpe, by simp [goodVal, hgh2, hgee]⟩
      have hset : ∀ x, plainVal x = true → goodVal x = true →
          plainVal (MValue.dict (setKeyMV ne "content" x)) = true ∧
          goodVal (MValue.dict (setKeyMV ne "content" x)) = true := by
        intro x hx1 hx2
        refine ⟨by simpa [plainVal] using plainEntries_setKeyMV ne "content" x hpe hx1, ?_⟩
        simp [goodVal, goodHeader_setKeyMV ne x hgh2,
          goodEntries_setKeyMV ne "content" x hgee hx2]
      cases hc : lookupMV entries "content" with
      | none =>
        rw [hc] at he
        dsimp only at he
        have h2 : (Except.ok (MValue.dict ne) : Except String MValue) = .ok r := he
        rw [← Except.ok.inj h2]
        exact hdict
      | some c =>
        rw [hc] at he
        dsimp only at he
        split at he
        · have h2 : (Except.ok (MValue.dict (setKeyMV ne "content"
              (.str (try_extract_pdf_text pe (binPayload c))))) : Except String MValue) =
              .ok r := he
          rw [← Except.ok.inj h2]
          exact hset _ rfl rfl
        · split at he
          · split at he
            · have hjd := try_decode_json_ok pj hpj (binPayload c)
              have h2 : (Except.ok (MValue.dict (setKeyMV ne "content"
                  (try_decode_json pj (binPayload c)))) : Except String MValue) = .ok r := he
              rw [← Except.ok.inj h2]
              exact hset _ hjd.1 hjd.2
            · have h2 : (Except.ok (MValue.dict ne) : Except String MValue) = .ok r := he
              rw [← Except.ok.inj h2]
              exact hdict
          · split at he
            · have hjd := try_decode_json_ok pj hpj (binPayload c)
              have h2 : (Except.ok (MValue.dict (setKeyMV ne "content"
                  (try_decode_json pj (binPayload c)))) : Except String MValue) = .ok r := he
              rw [← Except.ok.inj h2]
              exact hset _ hjd.1 hjd.2
            · have h2 : (Except.ok (MValue.dict ne) : Except String MValue) = .ok r := he
              rw [← Except.ok.inj h2]
              exact hdict
  | .list items => fun r hg he => by
      simp only [goodVal] at hg
      rw [_encode_mongo_document] at he
      obtain ⟨ni, hni, he⟩ := exc_bind_ok_inv he
      obtain ⟨hp, hgi⟩ := enc_pres_items pe pj hpj items ni hg hni
      have h2 : (Except.ok (MValue.list ni) : Except String MValue) = .ok r := he
      rw [← Except.ok.inj h2]
      exact ⟨by simpa [plainVal] using hp, by simpa [goodVal] using hgi⟩
  | .str s => fun r _ he => by
      have h2 : (Except.ok (MValue.str s) : Except String MValue) = .ok r := he
      rw [← Except.ok.inj h2]
      exact ⟨rfl, rfl⟩
  | .int n => fun r _ he => by
      have h2 : (Except.ok (MValue.int n) : Except String MValue) = .ok r := he
      rw [← Except.ok.inj h2]
      exact ⟨rfl, rfl⟩
  | .bool b => fun r _ he => by
      have h2 : (Except.ok (MValue.bool b) : Except String MValue) = .ok r := he
      rw [← Except.ok.inj h2]
      exact ⟨rfl, rfl⟩
  | .null => fun r _ he => by
      have h2 : (Except.ok MValue.null : Except String MValue) = .ok r := he
      rw [← Except.ok.inj h2]
      exact ⟨rfl, rfl⟩
  | .objectId s => fun r _ he => by
      have h2 : (Except.ok (MValue.str s) : Except String MValue) = .ok r := he
      rw [← Except.ok.inj h2]
      exact ⟨rfl, rfl⟩
  | .binary bs => fun r _ he => by
      have h2 : (Except.ok (MValue.str (b64encode bs)) : Except String MValue) = .ok r := he
      rw [← Except.ok.inj h2]
      exact ⟨rfl, rfl⟩
  | .bytes bs => fun r _ he => by
      have h2 : (Except.ok (MValue.str (b64encode bs)) : Except String MValue) = .ok r := he
      rw [← Except.ok.inj h2]
      exact ⟨rfl, rfl⟩
  | .datetime t => fun r _ he => by
      have h2 : (Except.ok (MValue.str (toString t)) : Except String MValue) = .ok r := he
      rw [← Except.ok.inj h2]
      exact ⟨rfl, rfl⟩
  | .other tag => fun r _ he => by
      have h2 : (Except.ok (MValue.other tag) : Except String MValue) = .ok r := he
      rw [← Except.ok.inj h2]
      exact ⟨rfl, rfl⟩

theorem enc_pres_entries (pe : List Nat → Option String) (pj : List Nat → Option MValue)
    (hpj : pjGood pj) :
    ∀ entries ne, goodEntries entries = true →
      _encode_mongo_entries pe pj entries = .ok ne →
      plainEntries ne = true ∧ goodEntries ne = true
  | [] => fun ne _ he => by
      have h2 : (Except.ok ([] : List (String × MValue)) :
          Except String (List (String × MValue))) = .ok ne := he
      rw [← Except.ok.inj h2]
      exact ⟨rfl, rfl⟩
  | (k, v) :: rest => fun ne hg he => by
      simp only [goodEntries, Bool.and_eq_true] at hg
      rw [_encode_mongo_entries] at he
      obtain ⟨w, hw, he⟩ := exc_bind_ok_inv he
      obtain ⟨nrest, hnr, he⟩ := exc_bind_ok_inv he
      obtain ⟨h1, h2⟩ := enc_pres pe pj hpj v w hg.1 hw
      obtain ⟨h3, h4⟩ := enc_pres_entries pe pj hpj rest nrest hg.2 hnr
      have h5 : (Except.ok ((k, w) :: nrest) :
          Except String (List (String × MValue))) = .ok ne := he
      rw [← Except.ok.inj h5]
      exact ⟨by simp [plainEntries, h1, h3], by simp [goodEntries, h2, h4]⟩

theorem enc_pres_items (pe : List Nat → Option String) (pj : List Nat → Option MValue)
    (hpj : pjGood pj) :
    ∀ items ni, goodItems items = true → _encode_mongo_list pe pj items = .ok ni →
      plainItems ni = true ∧ goodItems ni = true
  | [] => fun ni _ he => by
      have h2 : (Except.ok ([] : List MValue) : Except String (List MValue)) = .ok ni := he
      rw [← Except.ok.inj h2]
      exact ⟨rfl, rfl⟩
  | v :: rest => fun ni hg he => by
      simp only [goodItems, Bool.and_eq_true] at hg
      rw [_encode_mongo_list] at he
      obtain ⟨w, hw, he⟩ := exc_bind_ok_inv he
      obtain ⟨nrest, hnr, he⟩ := exc_bind_ok_inv he
      obtain ⟨h1, h2⟩ := enc_pres pe pj hpj v w hg.1 hw
      obtain ⟨h3, h4⟩ := enc_pres_items pe pj hpj rest nrest hg.2 hnr
      have h5 : (Except.ok (w :: nrest) : Except String (List MValue)) = .ok ni := he
      rw [← Except.ok.inj h5]
      exact ⟨by simp [plainItems, h1, h3], by simp [goodItems, h2, h4]⟩

end

theorem lookupMV_setKeyMV_eq (l : List (String × MValue)) (k : String) (nv : MValue)
    (h : (lookupMV l k).isSome) : lookupMV (setKeyMV l k nv) k = some nv := by
  induction l with
  | nil => simp [lookupMV] at h
  | cons e rest ih =>
    obtain ⟨ek, ev⟩ := e
    by_cases hk : ek = k
    · simp [setKeyMV, hk, lookupMV]
    · simp only [setKeyMV, if_neg hk, lookupMV] at h ⊢
      exact ih h

/-- C4 (confirmed): for every mapping whose "content" value is bytes or
Binary and whose normalization succeeds: when the declared header type
equals "application/pdf" the normalized content is the extracted text
(with empty text as the extraction-failure fallback, by definition of
try_extract_pdf_text), never base64; otherwise when the declared type is
"application/json" or the file name ends with ".json" case-insensitively,
the normalized content is the decoded structured value with base64 text as
the decode-failure fallback (by definition of try_decode_json); otherwise
the normalized content is the base64 text encoding of the raw bytes. -/
theorem encode_mongo_content_classification
    (pe : List Nat → Option String) (pj : List Nat → Option MValue)
    {entries : List (String × MValue)} {ft : Option MValue} {fn : MValue} {c w : MValue}
    (hhi : headerInfo entries = .ok (ft, fn))
    (hc : lookupMV entries "content" = some c)
    (hbin : isBinLike c = true)
    (he : _encode_mongo_document pe pj (.dict entries) = .ok w) :
    (eqStrO ft "application/pdf" = true →
      ∃ ne, w = .dict ne ∧ lookupMV ne "content" =
        some (.str (try_extract_pdf_text pe (binPayload c)))) ∧
    (eqStrO ft "application/pdf" = false →
      eqStrO ft "application/json" = true →
      ∃ ne, w = .dict ne ∧ lookupMV ne "content" =
        some (try_decode_json pj (binPayload c))) ∧
    (eqStrO ft "application/pdf" = false →
      eqStrO ft "application/json" = false →
      ∀ s, fn = .str s →
      (s.toLower.endsWith ".json" = true →
        ∃ ne, w = .dict ne ∧ lookupMV ne "content" =
          some (try_decode_json pj (binPayload c))) ∧
      (s.toLower.endsWith ".json" = false →
        ∃ ne, w = .dict ne ∧ lookupMV ne "content" =
          some (.str (b64encode (binPayload c))))) := by
  rw [_encode_mongo_document, hhi, exc_bind_ok] at he
  obtain ⟨ne0, hne0, he⟩ := exc_bind_ok_inv he
  rw [hc] at he
  dsimp only at he
  have hsome : (lookupMV ne0 "content").isSome := by
    obtain ⟨w2, _, hl2⟩ := enc_entries_lookup_some pe pj hne0 hc
    rw [hl2]
    rfl
  have hencc : ∀ k2, lookupMV ne0 "content" = some k2 →
      k2 = .str (b64encode (binPayload c)) := by
    intro k2 hk2
    obtain ⟨w2, hw2, hl2⟩ := enc_entries_lookup_some pe pj hne0 hc
    rw [hl2] at hk2
    cases c <;> simp [isBinLike] at hbin
    · have h3 : (Except.ok (MValue.str (b64encode _)) : Except String MValue) = .ok w2 := hw2
      rw [← Option.some.inj hk2, ← Except.ok.inj h3]
      rfl
    · have h3 : (Except.ok (MValue.str (b64encode _)) : Except String MValue) = .ok w2 := hw2
      rw [← Option.some.inj hk2, ← Except.ok.inj h3]
      rfl
  refine ⟨?_, ?_, ?_⟩
  · intro hpdf
    rw [hpdf, hbin] at he
    simp only [Bool.and_self, if_true] at he
    have h2 : (Except.ok (MValue.dict (setKeyMV ne0 "content"
        (.str (try_extract_pdf_text pe (binPayload c))))) : Except String MValue) = .ok w := he
    exact ⟨_, (Except.ok.inj h2).symm, lookupMV_setKeyMV_eq ne0 "content" _ hsome⟩
  · intro hpdf hjson
    rw [hpdf, hjson, hbin] at he
    simp only [Bool.false_and, if_false, if_true] at he
    have h2 : (Except.ok (MValue.dict (setKeyMV ne0 "content"
        (try_decode_json pj (binPayload c)))) : Except String MValue) = .ok w := he
    exact ⟨_, (Except.ok.inj h2).symm, lookupMV_setKeyMV_eq ne0 "content" _ hsome⟩
  · intro hpdf hjson s hfn
    rw [hpdf, hjson, hfn, hbin] at he
    simp only [Bool.false_and, if_false] at he
    constructor
    · intro hext
      rw [hext] at he
      simp only [Bool.true_and, if_true] at he
      have h2 : (Except.ok (MValue.dict (setKeyMV ne0 "content"
          (try_decode_json pj (binPayload c)))) : Except String MValue) = .ok w := he
      exact ⟨_, (Except.ok.inj h2).symm, lookupMV_setKeyMV_eq ne0 "content" _ hsome⟩
    · intro hext
      rw [hext] at he
      simp only [Bool.false_and, if_false] at he
      have h2 : (Except.ok (MValue.dict ne0) : Except String MValue) = .ok w := he
      refine ⟨ne0, (Except.ok.inj h2).symm, ?_⟩
      cases hk2 : lookupMV ne0 "content" with
      | none => rw [hk2] at hsome; simp at hsome
      | some k2 => rw [hencc k2 hk2]

/-- C4 (witness): the content-classification theorem applied to the
concrete PDF document `pdfDoc` with an extractor returning "TEXT". -/
theorem encode_mongo_content_classification_witness :
    headerInfo pdfDoc = .ok (some (.str "application/pdf"), .str "doc.pdf") ∧
    lookupMV pdfDoc "content" = some (.bytes [1, 2]) ∧
    isBinLike (.bytes [1, 2]) = true ∧
    _encode_mongo_document (fun _ => some "TEXT") (fun _ => none) (.dict pdfDoc) =
      .ok pdfDocResult ∧
    (eqStrO (some (.str "application/pdf")) "application/pdf" = true →
      ∃ ne, pdfDocResult = .dict ne ∧ lookupMV ne "content" =
        some (.str (try_extract_pdf_text (fun _ => some "TEXT")
          (binPayload (.bytes [1, 2]))))) :=
  ⟨rfl, rfl, rfl, rfl,
    (@encode_mongo_content_classification (fun _ => some "TEXT") (fun _ => none)
      pdfDoc (some (.str "application/pdf")) (.str "doc.pdf") (.bytes [1, 2])
      pdfDocResult rfl rfl rfl rfl).1⟩

/-- C1 (counterexample): the document normalizer is not a total function
over every reachable value. On the document whose "header" field holds the
number 5 instead of a mapping, line 65 of the source
(`doc.get("header", \x7b\x7d).get("type")`) performs an attribute access
on an int and raises AttributeError rather than returning a value. -/
theorem encode_mongo_document_raises_on_nonmapping_header :
    _encode_mongo_document (fun _ => none) (fun _ => none)
      (.dict [("header", .int 5)]) =
    .error "AttributeError: object has no attribute get" := rfl

/-- C1 (amended): the document normalizer never raises on any value all of
whose reachable mappings have a well-formed header (the "header" field,
when present, is a mapping whose "file_name" field, when present, is a
string), and values of unknown or unsupported types are returned
unchanged. -/
theorem encode_mongo_document_total_on_well_headered
    (pe : List Nat → Option String) (pj : List Nat → Option MValue) (v : MValue)
    (hv : goodVal v = true) :
    (∃ r, _encode_mongo_document pe pj v = .ok r) ∧
    (∀ tag, _encode_mongo_document pe pj (.other tag) = .ok (.other tag)) :=
  ⟨enc_total pe pj v hv, fun _ => rfl⟩

/-- C1 (witness): the amended totality theorem applied to a concrete
document holding an ObjectId, a Binary payload and a well-formed header. -/
theorem encode_mongo_document_total_on_well_headered_witness :
    goodVal (.dict [("header", .dict [("type", .str "text/plain"),
        ("file_name", .str "a.txt")]), ("a", .objectId "x"),
        ("content", .binary [0, 0, 1])]) = true ∧
    ((∃ r, _encode_mongo_document (fun _ => none) (fun _ => none)
        (.dict [("header", .dict [("type", .str "text/plain"),
          ("file_name", .str "a.txt")]), ("a", .objectId "x"),
          ("content", .binary [0, 0, 1])]) = .ok r) ∧
      (∀ tag, _encode_mongo_document (fun _ => none) (fun _ => none)
        (.other tag) = .ok (.other tag))) :=
  ⟨rfl, encode_mongo_document_total_on_well_headered (fun _ => none) (fun _ => none) _ rfl⟩

/-- C3 (counterexample): normalization is not idempotent. On the document
with header type "application/pdf", non-string file name 5 and binary
content, the first pass succeeds (the PDF branch short-circuits before
evaluating `file_name.lower()`), but the second pass reaches
`file_name.lower().endswith(".json")` on the now non-binary content and
raises, so the second application does not return the first result. -/
theorem encode_mongo_document_not_idempotent :
    _encode_mongo_document (fun _ => some "TEXT") (fun _ => none)
      (.dict [("header", .dict [("type", .str "application/pdf"), ("file_name", .int 5)]),
              ("content", .bytes [1, 2])]) =
      .ok (.dict [("header", .dict [("type", .str "application/pdf"),
              ("file_name", .int 5)]), ("content", .str "TEXT")]) ∧
    _encode_mongo_document (fun _ => some "TEXT") (fun _ => none)
      (.dict [("header", .dict [("type", .str "application/pdf"), ("file_name", .int 5)]),
              ("content", .str "TEXT")]) =
      .error "AttributeError: object has no attribute lower" :=
  ⟨rfl, rfl⟩

/-- C3 (amended): normalization is idempotent on every value all of whose
reachable mappings have a well-formed header (the "header" field, when
present, is a mapping whose "file_name" field, when present, is a string),
provided the external JSON decode primitive also yields only plain
well-headered values: a second pass returns the first result unchanged. -/
theorem encode_mongo_document_idempotent_on_well_headered
    (pe : List Nat → Option String) (pj : List Nat → Option MValue)
    (hpj : pjGood pj) (v r : MValue) (hv : goodVal v = true)
    (he : _encode_mongo_document pe pj v = .ok r) :
    _encode_mongo_document pe pj r = .ok r :=
  have h := enc_pres pe pj hpj v r hv he
  enc_fix pe pj r h.1 h.2

/-- C3 (witness): the amended idempotence theorem applied to a concrete
document holding a datetime and a binary payload. -/
theorem encode_mongo_document_idempotent_on_well_headered_witness :
    pjGood (fun _ => none) ∧
    goodVal (.dict [("a", .bytes [1]), ("b", .datetime 7)]) = true ∧
    _encode_mongo_document (fun _ => none) (fun _ => none)
      (.dict [("a", .bytes [1]), ("b", .datetime 7)]) =
      .ok (.dict [("a", .str "AQ=="), ("b", .str "7")]) ∧
    _encode_mongo_document (fun _ => none) (fun _ => none)
      (.dict [("a", .str "AQ=="), ("b", .str "7")]) =
      .ok (.dict [("a", .str "AQ=="), ("b", .str "7")]) :=
  ⟨fun _ _ h => Option.noConfusion h, rfl, rfl,
    encode_mongo_document_idempotent_on_well_headered (fun _ => none) (fun _ => none)
      (fun _ _ h => Option.noConfusion h)
      (.dict [("a", .bytes [1]), ("b", .datetime 7)])
      (.dict [("a", .str "AQ=="), ("b", .str "7")]) rfl rfl⟩


theorem execute_try_shape (col : Collection) (pe : List Nat → Option String)
    (pj : List Nat → Option MValue) (op : String)
    (filter : List (String × MValue)) (limit : Int)
    (sort : Option (List (String × MValue))) {r : List (String × MValue)}
    (h : execute_try col pe pj op filter limit sort = .ok r) :
    ∃ k v, r = [(k, v)] ∧
      (k = "results" ∨ k = "result" ∨ k = "count" ∨ k = "error") := by
  unfold execute_try at h
  split at h
  · obtain ⟨docs, hd, h⟩ := exc_bind_ok_inv h
    obtain ⟨enc, he2, h⟩ := exc_bind_ok_inv h
    have h2 :
        (Except.ok [("results", MValue.list enc)] :
          Except String (List (String × MValue))) = .ok r := h
    exact ⟨_, _, (Except.ok.inj h2).symm, Or.inl rfl⟩
  · split at h
    · obtain ⟨r0, hr0, h⟩ := exc_bind_ok_inv h
      cases r0 with
      | none =>
        have h2 :
            (Except.ok [("result", MValue.null)] :
              Except String (List (String × MValue))) = .ok r := h
        exact ⟨_, _, (Except.ok.inj h2).symm, Or.inr (Or.inl rfl)⟩
      | some d =>
        dsimp only at h
        split at h
        · obtain ⟨e2, he2, h⟩ := exc_bind_ok_inv h
          have h2 :
              (Except.ok [("result", e2)] :
                Except String (List (String × MValue))) = .ok r := h
          exact ⟨_, _, (Except.ok.inj h2).symm, Or.inr (Or.inl rfl)⟩
        · have h2 :
              (Except.ok [("result", d)] :
                Except String (List (String × MValue))) = .ok r := h
          exact ⟨_, _, (Except.ok.inj h2).symm, Or.inr (Or.inl rfl)⟩
    · split at h
      · obtain ⟨n, hn, h⟩ := exc_bind_ok_inv h
        have h2 :
            (Except.ok [("count", MValue.int n)] :
              Except String (List (String × MValue))) = .ok r := h
        exact ⟨_, _, (Except.ok.inj h2).symm, Or.inr (Or.inr (Or.inl rfl))⟩
      · have h2 :
            (Except.ok [("error",
              MValue.str ("Operation " ++ squote ++ op ++ squote ++ " is not supported"))] :
              Except String (List (String × MValue))) = .ok r := h
        exact ⟨_, _, (Except.ok.inj h2).symm, Or.inr (Or.inr (Or.inr rfl))⟩

/-- C2 (confirmed): execute_operation always returns a mapping holding
exactly one of the keys "results", "result", "count", "error" (the model
is a total function: every store fault raised inside the try block is
caught by the catch-all handler), and whenever the try block raises a
store fault with message e, the returned mapping is exactly the tagged
error with "Database operation failed: " prefixed to e. -/
theorem execute_operation_result_shape (col : Collection)
    (pe : List Nat → Option String) (pj : List Nat → Option MValue)
    (op : String) (filter : Option (List (String × MValue))) (limit : Int)
    (sort : Option (List (String × MValue))) :
    (∃ k v, execute_operation col pe pj op filter limit sort = [(k, v)] ∧
      (k = "results" ∨ k = "result" ∨ k = "count" ∨ k = "error")) ∧
    (∀ e, execute_try col pe pj op (filter.getD []) limit sort = .error e →
      execute_operation col pe pj op filter limit sort =
        [("error", .str ("Database operation failed: " ++ e))]) := by
  constructor
  · unfold execute_operation
    by_cases hop : op = ""
    · rw [if_pos hop]
      exact ⟨"error", _, rfl, Or.inr (Or.inr (Or.inr rfl))⟩
    · rw [if_neg hop]
      cases ht : execute_try col pe pj op (filter.getD []) limit sort with
      | ok r =>
        obtain ⟨k, v, hr, hk⟩ := execute_try_shape col pe pj op _ limit sort ht
        exact ⟨k, v, hr, hk⟩
      | error e =>
        exact ⟨"error", _, rfl, Or.inr (Or.inr (Or.inr rfl))⟩
  · intro e he
    unfold execute_operation
    by_cases hop : op = ""
    · subst hop
      unfold execute_try at he
      exact Except.noConfusion he
    · rw [if_neg hop, he]

/-- C2 (witness): the result-shape theorem applied to a faulting
collection: the store fault "boom" during "find" is surfaced as the tagged
database-operation-failed error. -/
theorem execute_operation_result_shape_witness :
    (∃ k v, execute_operation errorCollection (fun _ => none) (fun _ => none)
        "find" none 0 none = [(k, v)] ∧
      (k = "results" ∨ k = "result" ∨ k = "count" ∨ k = "error")) ∧
    execute_operation errorCollection (fun _ => none) (fun _ => none)
        "find" none 0 none =
      [("error", .str ("Database operation failed: " ++ "boom"))] :=
  ⟨(execute_operation_result_shape errorCollection (fun _ => none) (fun _ => none)
      "find" none 0 none).1,
   (execute_operation_result_shape errorCollection (fun _ => none) (fun _ => none)
      "find" none 0 none).2 "boom" rfl⟩

/-- C5 (confirmed): execute_operation validates the operation string
without raising: the empty (missing) operation yields exactly the
operation-required error, and any non-empty operation outside find,
find_one, count yields exactly the unsupported-operation error with the
operation string interpolated between single quotes. -/
theorem execute_operation_validation (col : Collection)
    (pe : List Nat → Option String) (pj : List Nat → Option MValue)
    (filter : Option (List (String × MValue))) (limit : Int)
    (sort : Option (List (String × MValue))) :
    execute_operation col pe pj "" filter limit sort =
      [("error", .str "Operation is required")] ∧
    ∀ op, op ≠ "" → op ≠ "find" → op ≠ "find_one" → op ≠ "count" →
      execute_operation col pe pj op filter limit sort =
        [("error", .str ("Operation " ++ squote ++ op ++ squote ++ " is not supported"))] := by
  constructor
  · unfold execute_operation
    rw [if_pos rfl]
  · intro op h0 h1 h2 h3
    unfold execute_operation
    rw [if_neg h0]
    unfold execute_try
    rw [if_neg h1, if_neg h2, if_neg h3]
    rfl

/-- C5 (witness): the validation theorem applied to the empty operation
and to the concrete unsupported operation "bogus". -/
theorem execute_operation_validation_witness :
    execute_operation errorCollection (fun _ => none) (fun _ => none)
      "" none 0 none = [("error", .str "Operation is required")] ∧
    execute_operation errorCollection (fun _ => none) (fun _ => none)
      "bogus" none 0 none =
      [("error", .str ("Operation " ++ squote ++ "bogus" ++ squote ++ " is not supported"))] :=
  ⟨(execute_operation_validation errorCollection (fun _ => none) (fun _ => none)
      none 0 none).1,
   (execute_operation_validation errorCollection (fun _ => none) (fun _ => none)
      none 0 none).2 "bogus" (by decide) (by decide) (by decide) (by decide)⟩

/-- C6 (code_bug): on a Ready tool over the users/orders catalog the
program does not return the claimed structure. _get_primary_keys
re-executes and fetches the primary-key query on the cursor that still
holds the pending column rows (line 76), so the fetchall of line 77 yields
no rows and both table entries come back with empty columns lists: the
users.id record with is_primary_key true is never produced, although the
orders.user_id to users.id relation edge is. The claim (and the testable
property of spec section 8) states the intended behavior of the dead loop
of lines 78 to 85. -/
theorem get_database_structure_users_orders_empty :
    get_database_structure usersOrdersReady = .ok {
      tables := [("orders", ⟨[]⟩), ("users", ⟨[]⟩)],
      relations := [
        [("from_table", .str "orders"), ("from_column", .str "user_id"),
         ("to_table", .str "users"), ("to_column", .str "id")]] } := rfl

/-- C7 (confirmed): when the tool is not in the Ready state, both
get_database_structure and get_table_details raise the not-initialized
fault, which propagates to the caller instead of a tagged error result. -/
theorem pg_requires_ready (st : PGState) (t : String)
    (h : st.inited = false) :
    get_database_structure st = .error .notInited ∧
    get_table_details st t = .error .notInited := by
  unfold get_database_structure get_table_details
  rw [h]
  exact ⟨rfl, rfl⟩

/-- C7 (witness): the guard theorem applied to the never-initialized
users/orders tool. -/
theorem pg_requires_ready_witness :
    usersOrdersUnready.inited = false ∧
    get_database_structure usersOrdersUnready = .error .notInited ∧
    get_table_details usersOrdersUnready "users" = .error .notInited :=
  ⟨rfl, pg_requires_ready usersOrdersUnready "users" rfl⟩

/-- C8 (confirmed): in the Ready state, a table name for which the catalog
returns no column rows (a nonexistent table included) yields the result
with that name and an empty column list, with no fault and no error
field. -/
theorem get_table_details_empty_table (st : PGState) (name : String)
    (h1 : st.inited = true) (h2 : st.connOpen = true)
    (h3 : st.catalog.columnRows name = []) :
    get_table_details st name = .ok { table := name, columns := [] } := by
  unfold get_table_details
  rw [h1, h2, h3]
  rfl

/-- C8 (witness): the empty-table theorem applied to the table name
"nonexistent" on the users/orders catalog. -/
theorem get_table_details_empty_table_witness :
    usersOrdersReady.inited = true ∧
    usersOrdersReady.connOpen = true ∧
    usersOrdersReady.catalog.columnRows "nonexistent" = [] ∧
    get_table_details usersOrdersReady "nonexistent" =
      .ok { table := "nonexistent", columns := [] } :=
  ⟨rfl, rfl, rfl,
    get_table_details_empty_table usersOrdersReady "nonexistent" rfl rfl rfl⟩

/-- C9 (confirmed): once the initialized flag is set, neither close nor a
repeated initialize resets it: after close, both schema queries still pass
the initialization guard and do not raise the not-initialized fault (they
fail on the closed connection instead, a different fault). -/
theorem pg_close_keeps_ready (st : PGState) (t : String)
    (h : st.inited = true) :
    (pgClose st).inited = true ∧
    (pgInit st).inited = true ∧
    get_database_structure (pgClose st) ≠ .error .notInited ∧
    get_table_details (pgClose st) t ≠ .error .notInited := by
  refine ⟨h, ?_, ?_, ?_⟩
  · simp [pgInit, h]
  · have h2 : get_database_structure (pgClose st) = .error .connClosed := by
      unfold get_database_structure pgClose
      rw [h]
      rfl
    rw [h2]
    intro hx
    exact PGErr.noConfusion (Except.error.inj hx)
  · have h2 : get_table_details (pgClose st) t = .error .connClosed := by
      unfold get_table_details pgClose
      rw [h]
      rfl
    rw [h2]
    intro hx
    exact PGErr.noConfusion (Except.error.inj hx)

/-- C9 (witness): the flag-persistence theorem applied to the Ready
users/orders tool. -/
theorem pg_close_keeps_ready_witness :
    usersOrdersReady.inited = true ∧
    ((pgClose usersOrdersReady).inited = true ∧
     (pgInit usersOrdersReady).inited = true ∧
     get_database_structure (pgClose usersOrdersReady) ≠ .error .notInited ∧
     get_table_details (pgClose usersOrdersReady) "users" ≠ .error .notInited) :=
  ⟨rfl, pg_close_keeps_ready usersOrdersReady "users" rfl⟩

/-- C10 (code_bug): get_database_structure emits no column records at
all: the shared-cursor clobbering of lines 76 and 77 leaves every table
entry with an empty columns list, so the structure-side records the claim
describes (a verbatim "nullable" catalog string next to a boolean
"is_primary_key") are the output of the dead loop of lines 78 to 85 and
never exist in a result. The get_table_details side of the claim does
hold: its records carry the catalog is_nullable strings "NO" and "YES"
verbatim. Both facts evaluated on the Ready users/orders tool. -/
theorem pg_nullable_code_behavior :
    get_database_structure usersOrdersReady = .ok {
      tables := [("orders", ⟨[]⟩), ("users", ⟨[]⟩)],
      relations := [
        [("from_table", .str "orders"), ("from_column", .str "user_id"),
         ("to_table", .str "users"), ("to_column", .str "id")]] } ∧
    get_table_details usersOrdersReady "users" = .ok {
      table := "users",
      columns := [
        [("column_name", .str "id"), ("data_type", .str "integer"),
         ("is_nullable", .str "NO"), ("column_default", .null),
         ("character_maximum_length", .null), ("numeric_precision", .int 32),
         ("numeric_scale", .int 0)],
        [("column_name", .str "name"), ("data_type", .str "text"),
         ("is_nullable", .str "YES"), ("column_default", .null),
         ("character_maximum_length", .null), ("numeric_precision", .null),
         ("numeric_scale", .null)]] } :=
  ⟨rfl, rfl⟩
